import Mathlib

/-!
# cdl-nc: the guest-tools connectivity probe

A verification development for `oz/guesttools/cdl-nc.c`.  The program parses
its command line with `getopt`, creates a TCP/IPv4 socket, parses the host with
`inet_aton`, connects, writes the five bytes of "hello" and returns a status
that tells which stage failed.

The two functions of the source, `usage` and `main`, are embedded as Lean
functions.  The calls that leave the program and whose results it uses (the C
library and the operating system) are taken from a record `Libc` of functions,
so that the theorems hold for every behaviour of the library and of the
network; only `htons`, whose result its definition fixes, is written out.  A run
is the list of externally visible calls it makes (the trace) together with its
exit status.  Calls are taken to return: a `connect` or `write` that blocks for
ever is outside the model.
-/

namespace CdlNc

/-! ## Data model -/

/-- The address family constant of `<sys/socket.h>` (its Linux value). -/
def AF_INET : Int := 2

/-- The socket type constant of `<sys/socket.h>` (its Linux value). -/
def SOCK_STREAM : Int := 1

/-- The `struct sockaddr_in` that `main` fills in.  The port and the address are
kept as the bytes that lie in memory, which is network byte order. -/
structure SockaddrIn where
  sin_family : Int
  sin_port : List Nat
  sin_addr : List Nat
deriving DecidableEq

/-- The externally visible calls a run can make.  `read` is part of the
alphabet of socket operations although `main` never issues it. -/
inductive Event where
  | stderr (text : String)
  | socket (domain : Int) (type : Int) (protocol : Int)
  | connect (fd : Int) (addr : SockaddrIn)
  | write (fd : Int) (buf : String) (count : Nat)
  | read (fd : Int) (count : Nat)
  | close (fd : Int)
deriving DecidableEq

/-- What a finished run leaves behind: the calls it made, in order, and the
exit status of the process. -/
structure Run where
  trace : List Event
  status : Int
deriving DecidableEq

/-- What one call of `getopt` yields: its return value, the value of the global
`optind` afterwards, and the argument vector afterwards (GNU `getopt` may
permute it; a POSIX `getopt` leaves it as it was). -/
structure GetoptResult where
  ret : Int
  optind : Nat
  argv : List String

/-- The calls of `main` whose results it uses.  `getopt` gives the outcome of
the first call of the option loop; `inet_aton` yields `none` when the C function
returns 0 and otherwise the four address bytes it stores; `strerror_errno` is
the text of `strerror(errno)` after a failed `socket`.  The result of `close` is
ignored by `main` and has no entry. -/
structure Libc where
  getopt : List String → String → GetoptResult
  atoi : String → Int
  socket : Int → Int → Int → Int
  strerror_errno : String
  inet_aton : String → Option (List Nat)
  connect : Int → SockaddrIn → Int
  write : Int → String → Nat → Int

/-- The function `htons` applied to an `int`: the argument is converted to
`uint16_t`, that is reduced modulo 2^16, and the result is the 16-bit quantity in
network byte order, given here as its two bytes in memory, high byte first. -/
def htons (hostshort : Int) : List Nat :=
  let v := (hostshort % 65536).toNat
  [v / 256, v % 256]

/-- The port number that a two-byte network-order field denotes. -/
def ntohs (netshort : List Nat) : Nat :=
  netshort.getD 0 0 * 256 + netshort.getD 1 0

/-! ## The program -/

/-- The function `usage` of the source: three lines on the error stream, then
`exit(1)`.  The process ends here, so the result is a finished run; `tr` is the
trace up to the call. -/
def usage (tr : List Event) : Run :=
  { trace := tr ++ [Event.stderr "Usage: static-nc [OPTIONS] <host> <port>\n",
                    Event.stderr "\nOPTIONS:\n",
                    Event.stderr " -h\tPrint this help message\n"],
    status := 1 }

/-- The label `cleanup` of `main`: close the socket and return `retval`. -/
def cleanup (s : Int) (retval : Int) (tr : List Event) : Run :=
  { trace := tr ++ [Event.close s], status := retval }

/-- The function `main` of the source.  Since `usage` ends the process, the body
of the option loop never completes: the loop test is evaluated once, and either
`getopt` returns -1 and the loop is left, or the `switch` calls `usage`.  The
character `h` is 104.  The two reads `argv[optind++]` are in range in C when
`argc - optind` is 2; where the vector handed back by `getopt` has no such entry
the empty string stands in. -/
def main (L : Libc) (argv : List String) : Run :=
  let argc : Int := argv.length
  let g := L.getopt argv ":h"
  if g.ret ≠ -1 then
    if g.ret = 104 then usage [] else usage []
  else if argc - g.optind ≠ 2 then
    usage []
  else
    let host := g.argv.getD g.optind ""
    let port := L.atoi (g.argv.getD (g.optind + 1) "")
    let s := L.socket AF_INET SOCK_STREAM 0
    let tr1 := [Event.socket AF_INET SOCK_STREAM 0]
    if s < 0 then
      { trace := tr1 ++ [Event.stderr ("Error creating socket: " ++ L.strerror_errno ++ "\n")],
        status := 1 }
    else
      let a0 : SockaddrIn := { sin_family := 0, sin_port := [0, 0], sin_addr := [0, 0, 0, 0] }
      let a1 : SockaddrIn := { a0 with sin_port := htons port }
      let a2 : SockaddrIn := { a1 with sin_family := AF_INET }
      match L.inet_aton host with
      | none =>
        cleanup s 3 (tr1 ++ [Event.stderr ("Invalid address " ++ host ++ "\n")])
      | some addr =>
        let a : SockaddrIn := { a2 with sin_addr := addr }
        let ret := L.connect s a
        let tr2 := tr1 ++ [Event.connect s a]
        if ret < 0 then
          cleanup s 2
            (tr2 ++ [Event.stderr
              ("Failed to connect to " ++ host ++ ":" ++ toString port ++ "\n")])
        else
          let bytes := L.write s "hello" 5
          let tr3 := tr2 ++ [Event.write s "hello" 5]
          if bytes ≠ 5 then
            cleanup s 3
              (tr3 ++ [Event.stderr
                ("Expected to write 5 bytes to socket, wrote " ++ toString bytes ++ "\n")])
          else
            cleanup s 0 tr3

/-! ## Names for the values of a run

The theorems speak about the values `main` computes on its way.  Each of them
is given a name here, as the same expression `main` uses. -/

/-- The result of option parsing. -/
def parsed (L : Libc) (argv : List String) : GetoptResult :=
  L.getopt argv ":h"

/-- The number of positional arguments, `argc - optind`. -/
def positionals (L : Libc) (argv : List String) : Int :=
  (argv.length : Int) - (parsed L argv).optind

/-- The first positional argument. -/
def hostArg (L : Libc) (argv : List String) : String :=
  (parsed L argv).argv.getD (parsed L argv).optind ""

/-- The second positional argument. -/
def portArg (L : Libc) (argv : List String) : String :=
  (parsed L argv).argv.getD ((parsed L argv).optind + 1) ""

/-- The value of the variable `port`. -/
def portOf (L : Libc) (argv : List String) : Int :=
  L.atoi (portArg L argv)

/-- The descriptor `s` that `socket` returns. -/
def sockFd (L : Libc) : Int :=
  L.socket AF_INET SOCK_STREAM 0

/-- The address passed to `connect` when `inet_aton` stored `addr`. -/
def target (L : Libc) (argv : List String) (addr : List Nat) : SockaddrIn :=
  { sin_family := AF_INET, sin_port := htons (portOf L argv), sin_addr := addr }

/-- The three lines `usage` prints. -/
def usageText : List Event :=
  [Event.stderr "Usage: static-nc [OPTIONS] <host> <port>\n",
   Event.stderr "\nOPTIONS:\n",
   Event.stderr " -h\tPrint this help message\n"]

/-- The bytes a `write` hands to the connection: the first `count` characters
of the buffer, as character codes. -/
def payload (buf : String) (count : Nat) : List Nat :=
  (buf.toList.take count).map Char.toNat

/-- Whether an event moves data over the connection. -/
def Event.isDataOp : Event → Bool
  | Event.write _ _ _ => true
  | Event.read _ _ => true
  | _ => false

/-- Whether an event is a read. -/
def Event.isRead : Event → Bool
  | Event.read _ _ => true
  | _ => false

/-- Whether an event is a write. -/
def Event.isWrite : Event → Bool
  | Event.write _ _ _ => true
  | _ => false

/-- Whether an event is a connect. -/
def Event.isConnect : Event → Bool
  | Event.connect _ _ => true
  | _ => false

/-- Whether an event is a socket creation. -/
def Event.isSocket : Event → Bool
  | Event.socket _ _ _ => true
  | _ => false

/-- Whether an event is a close. -/
def Event.isClose : Event → Bool
  | Event.close _ => true
  | _ => false

/-- Whether an event is output on the error stream. -/
def Event.isStderr : Event → Bool
  | Event.stderr _ => true
  | _ => false

/-! ## The stages of a run and the exit status the specification gives -/

/-- The stages at which a run can fail, in program order. -/
inductive Stage where
  | usage
  | socket
  | address
  | connect
  | write
deriving DecidableEq

/-- The stages in the order in which `main` goes through them. -/
def stages : List Stage :=
  [Stage.usage, Stage.socket, Stage.address, Stage.connect, Stage.write]

/-- The exit code designated for a failure of each stage. -/
def Stage.code : Stage → Int
  | Stage.usage => 1
  | Stage.socket => 1
  | Stage.address => 3
  | Stage.connect => 2
  | Stage.write => 3

/-- Whether a stage fails, read off the outcomes of the library calls alone.
For the connect stage the address is the one `inet_aton` stores, or the zero
bytes `memset` left when it stores none. -/
def stageFails (L : Libc) (argv : List String) : Stage → Bool
  | Stage.usage => decide ((parsed L argv).ret ≠ -1 ∨ positionals L argv ≠ 2)
  | Stage.socket => decide (sockFd L < 0)
  | Stage.address => (L.inet_aton (hostArg L argv)).isNone
  | Stage.connect =>
    decide (L.connect (sockFd L)
      (target L argv ((L.inet_aton (hostArg L argv)).getD [0, 0, 0, 0])) < 0)
  | Stage.write => decide (L.write (sockFd L) "hello" 5 ≠ 5)

/-- The first stage that fails, if any, in the fixed order of the stages. -/
def firstFailure (fails : Stage → Bool) : Option Stage :=
  stages.find? fails

/-- The exit status as the specification words it: the designated code of the
first failing stage, and 0 when no stage fails. -/
def specStatus (fails : Stage → Bool) : Int :=
  match firstFailure fails with
  | some st => st.code
  | none => 0

/-- The error report of each class of failure, as `main` words it. -/
def report (L : Libc) (argv : List String) : Stage → List Event
  | Stage.usage => usageText
  | Stage.socket => [Event.stderr ("Error creating socket: " ++ L.strerror_errno ++ "\n")]
  | Stage.address => [Event.stderr ("Invalid address " ++ hostArg L argv ++ "\n")]
  | Stage.connect =>
    [Event.stderr ("Failed to connect to " ++ hostArg L argv ++ ":" ++
      toString (portOf L argv) ++ "\n")]
  | Stage.write =>
    [Event.stderr ("Expected to write 5 bytes to socket, wrote " ++
      toString (L.write (sockFd L) "hello" 5) ++ "\n")]

/-- The error report the specification expects of a run: that of the first
failing stage, and nothing when no stage fails. -/
def specReport (L : Libc) (argv : List String) : List Event :=
  match firstFailure (stageFails L argv) with
  | some st => report L argv st
  | none => []

/-! ## The C library functions the claims speak about

`main` takes its library from a `Libc`.  The functions below give the behaviour
of three of its entries, for the statements that are about the library itself
and for concrete runs.  `atoi` and `inet_aton` follow the GNU C library on a
platform with 32-bit `int` and 64-bit `long`; a C string is the list of its
characters, which holds no NUL. -/

namespace Posix

/-- The white-space characters of `isspace` in the C locale. -/
def isspace (c : Char) : Bool :=
  c = ' ' || c = '\t' || c = '\n' || c = '\x0b' || c = '\x0c' || c = '\r'

/-- The decimal digits, `isdigit`. -/
def isdigit (c : Char) : Bool :=
  decide ('0' ≤ c ∧ c ≤ '9')

/-- The value of a digit character, for bases up to 16. -/
def digitValue (c : Char) : Option Nat :=
  if '0' ≤ c ∧ c ≤ '9' then some (c.toNat - 48)
  else if 'a' ≤ c ∧ c ≤ 'f' then some (c.toNat - 87)
  else if 'A' ≤ c ∧ c ≤ 'F' then some (c.toNat - 55)
  else none

/-- The value of the longest run of decimal digits at the start of the text,
continuing from `acc`; `acc` itself when there is none. -/
def leadingDigits : List Char → Nat → Nat
  | [], acc => acc
  | c :: cs, acc =>
    if '0' ≤ c ∧ c ≤ '9' then leadingDigits cs (acc * 10 + (c.toNat - 48)) else acc

/-- The text of a number after white space: an optional sign, then digits. -/
def signedDigits : List Char → Int
  | [] => 0
  | c :: cs =>
    if c = '-' then -((leadingDigits cs 0 : Nat) : Int)
    else if c = '+' then ((leadingDigits cs 0 : Nat) : Int)
    else ((leadingDigits (c :: cs) 0 : Nat) : Int)

/-- The function `strtol` with base 10 and no end pointer: white space is
skipped, an optional sign is read, then decimal digits as far as they go; without
a digit the result is 0.  A number outside the range of `long` is replaced by
`LONG_MAX` or `LONG_MIN`. -/
def strtol (nptr : List Char) : Int :=
  let v := signedDigits (nptr.dropWhile isspace)
  if v > 9223372036854775807 then 9223372036854775807
  else if v < -9223372036854775808 then -9223372036854775808
  else v

/-- The conversion of a `long` to `int`: the low 32 bits, read as a signed
number. -/
def toInt (v : Int) : Int :=
  (v + 2147483648) % 4294967296 - 2147483648

/-- The function `atoi`, which is `(int) strtol(nptr, NULL, 10)`. -/
def atoi (nptr : String) : Int :=
  toInt (strtol nptr.toList)

/-- Whether `atoi` finds no number in the text: after white space and an
optional sign the text does not go on with a decimal digit. -/
def unparseable (nptr : String) : Bool :=
  match nptr.toList.dropWhile isspace with
  | [] => true
  | c :: cs =>
    if c = '-' ∨ c = '+' then
      match cs with
      | [] => true
      | d :: _ => !decide ('0' ≤ d ∧ d ≤ '9')
    else !decide ('0' ≤ c ∧ c ≤ '9')

/-- The longest run of digits of the base at the start of the text: its value,
continuing from `acc`, and the text that follows it. -/
def digitsRun (base : Nat) : List Char → Nat → Nat × List Char
  | [], acc => (acc, [])
  | c :: cs, acc =>
    match digitValue c with
    | some d => if d < base then digitsRun base cs (acc * base + d) else (acc, c :: cs)
    | none => (acc, c :: cs)

/-- Whether the text after a leading `0` goes on as a hexadecimal constant: `x`
or `X` and then a hexadecimal digit. -/
def hexPrefix : List Char → Bool
  | x :: h :: _ => (x = 'x' || x = 'X') && (digitValue h).isSome
  | _ => false

/-- The function `strtoul` with base 0 on a text that begins with a digit: the
number read and the text at the end pointer.  After `0x` or `0X` and a
hexadecimal digit the base is 16, after another leading `0` it is 8, otherwise
10.  The number is not cut to `unsigned long` here: `inet_aton` refuses every
value above 0xffffffff, as it refuses the `ULONG_MAX` of an overflow. -/
def strtoul (cp : List Char) : Nat × List Char :=
  match cp with
  | [] => (0, [])
  | c :: rest =>
    if c = '0' then
      if hexPrefix rest then digitsRun 16 (rest.drop 1) 0 else digitsRun 8 rest 0
    else digitsRun 10 (c :: rest) 0

/-- The table `max` of `inet_aton`: the largest last part after `n` parts have
been stored. -/
def limit (n : Nat) : Nat :=
  [4294967295, 16777215, 65535, 255].getD n 0

/-- The four bytes of `htonl(v)` in memory. -/
def htonl (v : Nat) : List Nat :=
  [v / 16777216 % 256, v / 65536 % 256, v / 256 % 256, v % 256]

/-- The address `inet_aton` stores, `res.word | htonl(val)`: the bytes `pp` of
the parts before the last, filled up with zero bytes, combined with the bytes of
the last part. -/
def store (pp : List Nat) (val : Nat) : List Nat :=
  List.zipWith (fun x y => x ||| y) (pp ++ List.replicate (4 - pp.length) 0) (htonl val)

/-- The end of `inet_aton` after its loop: what follows the last number must be
the end of the string or white space, and the last part must be within its
limit. -/
def finish (val : Nat) (pp : List Nat) (rest : List Char) : Option (List Nat) :=
  match rest with
  | [] => if val > limit pp.length then none else some (store pp val)
  | c :: _ =>
    if !isspace c then none
    else if val > limit pp.length then none
    else some (store pp val)

/-- The loop of `inet_aton`.  Each round needs a digit, reads a number with
`strtoul` and refuses it above 0xffffffff; after a dot the number must be at
most 255 and is stored as the next byte, and the loop goes on behind the dot;
`room` counts the dots still allowed (three at the start).  Without a dot the
loop is left. -/
def inetLoop : Nat → List Char → List Nat → Option (List Nat)
  | room, cp, pp =>
    match cp with
    | [] => none
    | c :: _ =>
      if !isdigit c then none
      else if (strtoul cp).1 > 4294967295 then none
      else
        match (strtoul cp).2 with
        | [] => finish (strtoul cp).1 pp []
        | d :: next =>
          if d = '.' then
            match room with
            | 0 => none
            | room' + 1 =>
              if (strtoul cp).1 > 255 then none
              else inetLoop room' next (pp ++ [(strtoul cp).1])
          else finish (strtoul cp).1 pp (d :: next)

/-- The function `inet_aton`: the four bytes it stores, `none` when it returns
0. -/
def inet_aton (cp : String) : Option (List Nat) :=
  inetLoop 3 cp.toList []

/-- The parts of a text between its dots. -/
def splitDots : List Char → List (List Char)
  | [] => [[]]
  | c :: cs =>
    if c = '.' then [] :: splitDots cs
    else
      match splitDots cs with
      | p :: ps => (c :: p) :: ps
      | [] => [[c]]

/-- The value of a text all of whose characters are digits of the base,
continuing from `acc`. -/
def number (base : Nat) : List Char → Nat → Option Nat
  | [], acc => some acc
  | c :: cs, acc =>
    match digitValue c with
    | some d => if d < base then number base cs (acc * base + d) else none
    | none => none

/-- One part of an address as a C constant that takes up the whole part: `0x`
or `0X` and hexadecimal digits, a leading `0` and octal digits, or decimal
digits. -/
def component (cs : List Char) : Option Nat :=
  match cs with
  | [] => none
  | c :: rest =>
    if c = '0' then
      match rest with
      | [] => some 0
      | x :: ds =>
        if x = 'x' ∨ x = 'X' then
          (if ds = [] then none else number 16 ds 0)
        else number 8 rest 0
    else number 10 cs 0

/-- The text of the address in a host string: what stands before the first
white-space character. -/
def addressText (cs : List Char) : List Char :=
  cs.takeWhile (fun c => !isspace c)

/-- The bytes of an address given by its parts, for the four forms of the
manual of `inet_aton`: `a` (32 bits), `a.b` (`b` of 24 bits), `a.b.c` (`c` of 16
bits) and `a.b.c.d`. -/
def formBytes : List (Option Nat) → Option (List Nat)
  | [some a] =>
    if a < 4294967296 then some [a / 16777216, a / 65536 % 256, a / 256 % 256, a % 256]
    else none
  | [some a, some b] =>
    if a < 256 ∧ b < 16777216 then some [a, b / 65536, b / 256 % 256, b % 256] else none
  | [some a, some b, some c] =>
    if a < 256 ∧ b < 256 ∧ c < 65536 then some [a, b, c / 256, c % 256] else none
  | [some a, some b, some c, some d] =>
    if a < 256 ∧ b < 256 ∧ c < 256 ∧ d < 256 then some [a, b, c, d] else none
  | _ => none

/-- The address forms as the manual states them: the text before the first
white space is one to four parts between dots, each a C constant, and the parts
are within the bounds of the form.  The result is the address, `none` for a host
of no such form. -/
def addressForm (host : String) : Option (List Nat) :=
  formBytes ((splitDots (addressText host.toList)).map component)

/-- The form check part by part: every part but the last at most 255, at most
`room` dots, the last part within the limit of its place. -/
def assemble : Nat → List (Option Nat) → List Nat → Option (List Nat)
  | _, [], _ => none
  | room, o :: rest, pp =>
    match o with
    | none => none
    | some v =>
      match rest with
      | [] => if v ≤ limit pp.length then some (store pp v) else none
      | w :: ws =>
        match room with
        | 0 => none
        | room' + 1 => if v ≤ 255 then assemble room' (w :: ws) (pp ++ [v]) else none

/-- The first call of a POSIX `getopt` with the option string ":h", which has
the one flag `h` and no option arguments.  Parsing ends (-1) at the first word
that is not an option; the word `--` ends it and is skipped.  A word `-h...`
yields `h` (104) and any other flag `?` (63); `optind` moves on when the word
has been used up.  The argument vector is left as it is. -/
def getopt (argv : List String) (_optstring : String) : GetoptResult :=
  match argv.getD 1 "" with
  | "--" => { ret := -1, optind := 2, argv := argv }
  | word =>
    if argv.length ≤ 1 then { ret := -1, optind := 1, argv := argv }
    else
      match word.toList with
      | c :: f :: more =>
        if c = '-' then
          { ret := if f = 'h' then 104 else 63,
            optind := if more = [] then 2 else 1,
            argv := argv }
        else { ret := -1, optind := 1, argv := argv }
      | _ => { ret := -1, optind := 1, argv := argv }

/-- A C library over a network with fixed outcomes: `socket`, `connect` and
`write` return `sock`, `conn` and `wr`. -/
def libc (sock conn wr : Int) : Libc :=
  { getopt := getopt,
    atoi := atoi,
    socket := fun _ _ _ => sock,
    strerror_errno := "Too many open files",
    inet_aton := inet_aton,
    connect := fun _ _ => conn,
    write := fun _ _ _ => wr }

end Posix

/-- The host form the specification names: `a.b.c.d`, four parts of decimal
digits, each denoting a number from 0 to 255. -/
def isDottedQuad (host : String) : Bool :=
  match (Posix.splitDots host.toList).map (fun p => if p = [] then none else Posix.number 10 p 0) with
  | [some a, some b, some c, some d] => decide (a < 256 ∧ b < 256 ∧ c < 256 ∧ d < 256)
  | _ => false

/-! ## The run on each path -/

theorem main_flag (L : Libc) (argv : List String)
    (h : (parsed L argv).ret ≠ -1) :
    main L argv = { trace := usageText, status := 1 } := by
  unfold parsed at h
  unfold main
  simp [h, usage, usageText]

theorem main_count (L : Libc) (argv : List String)
    (h : positionals L argv ≠ 2) :
    main L argv = { trace := usageText, status := 1 } := by
  unfold positionals parsed at h
  unfold main
  simp [h, usage, usageText]


theorem main_socket_fail (L : Libc) (argv : List String)
    (hret : (parsed L argv).ret = -1) (hpos : positionals L argv = 2)
    (hsock : sockFd L < 0) :
    main L argv =
      { trace := [Event.socket AF_INET SOCK_STREAM 0,
                  Event.stderr ("Error creating socket: " ++ L.strerror_errno ++ "\n")],
        status := 1 } := by
  unfold positionals at hpos
  unfold parsed at hret hpos
  unfold sockFd at hsock
  unfold main
  simp [hret, hpos, hsock]

theorem main_addr_fail (L : Libc) (argv : List String)
    (hret : (parsed L argv).ret = -1) (hpos : positionals L argv = 2)
    (hsock : 0 ≤ sockFd L) (haddr : L.inet_aton (hostArg L argv) = none) :
    main L argv =
      { trace := [Event.socket AF_INET SOCK_STREAM 0,
                  Event.stderr ("Invalid address " ++ hostArg L argv ++ "\n"),
                  Event.close (sockFd L)],
        status := 3 } := by
  unfold positionals at hpos
  unfold hostArg at haddr
  unfold parsed at hret hpos haddr
  unfold sockFd at hsock
  simp only [List.getD_eq_getElem?_getD] at haddr
  unfold main
  simp [hret, hpos, not_lt.mpr hsock, haddr, cleanup, hostArg, parsed, sockFd]

theorem main_connect_fail (L : Libc) (argv : List String) (addr : List Nat)
    (hret : (parsed L argv).ret = -1) (hpos : positionals L argv = 2)
    (hsock : 0 ≤ sockFd L) (haddr : L.inet_aton (hostArg L argv) = some addr)
    (hconn : L.connect (sockFd L) (target L argv addr) < 0) :
    main L argv =
      { trace := [Event.socket AF_INET SOCK_STREAM 0,
                  Event.connect (sockFd L) (target L argv addr),
                  Event.stderr ("Failed to connect to " ++ hostArg L argv ++ ":" ++
                    toString (portOf L argv) ++ "\n"),
                  Event.close (sockFd L)],
        status := 2 } := by
  unfold positionals at hpos
  unfold target portOf portArg at hconn
  unfold hostArg at haddr
  unfold parsed at hret hpos haddr hconn
  unfold sockFd at hsock hconn
  simp only [List.getD_eq_getElem?_getD] at haddr hconn
  unfold main
  simp [hret, hpos, not_lt.mpr hsock, haddr, hconn, cleanup, hostArg, parsed, sockFd,
    target, portOf, portArg]

theorem main_write_fail (L : Libc) (argv : List String) (addr : List Nat)
    (hret : (parsed L argv).ret = -1) (hpos : positionals L argv = 2)
    (hsock : 0 ≤ sockFd L) (haddr : L.inet_aton (hostArg L argv) = some addr)
    (hconn : 0 ≤ L.connect (sockFd L) (target L argv addr))
    (hwrite : L.write (sockFd L) "hello" 5 ≠ 5) :
    main L argv =
      { trace := [Event.socket AF_INET SOCK_STREAM 0,
                  Event.connect (sockFd L) (target L argv addr),
                  Event.write (sockFd L) "hello" 5,
                  Event.stderr ("Expected to write 5 bytes to socket, wrote " ++
                    toString (L.write (sockFd L) "hello" 5) ++ "\n"),
                  Event.close (sockFd L)],
        status := 3 } := by
  unfold positionals at hpos
  unfold target portOf portArg at hconn
  unfold hostArg at haddr
  unfold parsed at hret hpos haddr hconn
  unfold sockFd at hsock hconn hwrite
  simp only [List.getD_eq_getElem?_getD] at haddr hconn
  unfold main
  simp [hret, hpos, not_lt.mpr hsock, haddr, not_lt.mpr hconn, hwrite, cleanup, hostArg,
    parsed, sockFd, target, portOf, portArg]

theorem main_ok (L : Libc) (argv : List String) (addr : List Nat)
    (hret : (parsed L argv).ret = -1) (hpos : positionals L argv = 2)
    (hsock : 0 ≤ sockFd L) (haddr : L.inet_aton (hostArg L argv) = some addr)
    (hconn : 0 ≤ L.connect (sockFd L) (target L argv addr))
    (hwrite : L.write (sockFd L) "hello" 5 = 5) :
    main L argv =
      { trace := [Event.socket AF_INET SOCK_STREAM 0,
                  Event.connect (sockFd L) (target L argv addr),
                  Event.write (sockFd L) "hello" 5,
                  Event.close (sockFd L)],
        status := 0 } := by
  unfold positionals at hpos
  unfold target portOf portArg at hconn
  unfold hostArg at haddr
  unfold parsed at hret hpos haddr hconn
  unfold sockFd at hsock hconn hwrite
  simp only [List.getD_eq_getElem?_getD] at haddr hconn
  unfold main
  simp [hret, hpos, not_lt.mpr hsock, haddr, not_lt.mpr hconn, hwrite, cleanup,
    parsed, sockFd, target, portOf, portArg]

theorem main_usage (L : Libc) (argv : List String)
    (h : (parsed L argv).ret ≠ -1 ∨ positionals L argv ≠ 2) :
    main L argv = { trace := usageText, status := 1 } := by
  rcases h with h | h
  · exact main_flag L argv h
  · exact main_count L argv h

/-! ## The claims -/

/-- Claim C1.  In every run without flags and with exactly two positional
arguments in which `socket` succeeds, `inet_aton` accepts the host, `connect`
succeeds and `write` returns 5, the exit status is 0, the calls are exactly
socket, connect, write, close, the only data operation is the one write of the
buffer "hello" with count 5, whose payload is the bytes h, e, l, l, o, and no
read is issued. -/
theorem probe_success (L : Libc) (argv : List String) (addr : List Nat)
    (hret : (parsed L argv).ret = -1) (hpos : positionals L argv = 2)
    (hsock : 0 ≤ sockFd L) (haddr : L.inet_aton (hostArg L argv) = some addr)
    (hconn : 0 ≤ L.connect (sockFd L) (target L argv addr))
    (hwrite : L.write (sockFd L) "hello" 5 = 5) :
    (main L argv).status = 0 ∧
    (main L argv).trace =
      [Event.socket AF_INET SOCK_STREAM 0,
       Event.connect (sockFd L) (target L argv addr),
       Event.write (sockFd L) "hello" 5,
       Event.close (sockFd L)] ∧
    (main L argv).trace.filter Event.isDataOp = [Event.write (sockFd L) "hello" 5] ∧
    payload "hello" 5 = ['h', 'e', 'l', 'l', 'o'].map Char.toNat ∧
    payload "hello" 5 = [104, 101, 108, 108, 111] ∧
    (∀ e ∈ (main L argv).trace, e.isRead = false) := by
  rw [main_ok L argv addr hret hpos hsock haddr hconn hwrite]
  refine ⟨rfl, rfl, ?_, by decide, by decide, ?_⟩
  · simp [Event.isDataOp]
  · simp [Event.isRead]

/-- A run for claim C1: `cdl-nc 127.0.0.1 80` with a listener that takes the
five bytes. -/
theorem probe_success_witness :
    (main (Posix.libc 3 0 5) ["cdl-nc", "127.0.0.1", "80"]).status = 0 ∧
    (main (Posix.libc 3 0 5) ["cdl-nc", "127.0.0.1", "80"]).trace =
      [Event.socket AF_INET SOCK_STREAM 0,
       Event.connect 3 { sin_family := 2, sin_port := [0, 80], sin_addr := [127, 0, 0, 1] },
       Event.write 3 "hello" 5,
       Event.close 3] :=
  have h := probe_success (Posix.libc 3 0 5) ["cdl-nc", "127.0.0.1", "80"] [127, 0, 0, 1]
    (by decide) (by decide) (by decide) (by decide) (by decide) (by decide)
  ⟨h.1, h.2.1⟩

/-- Claim C2.  Whenever the number of positional arguments `argc - optind` is
not two, the run prints the usage text on the error stream and exits with
status 1, and neither socket nor connect nor write nor close is called. -/
theorem wrong_count_usage (L : Libc) (argv : List String)
    (hpos : positionals L argv ≠ 2) :
    (main L argv).status = 1 ∧
    (main L argv).trace = usageText ∧
    (∀ e ∈ (main L argv).trace,
      e.isStderr = true ∧ e.isSocket = false ∧ e.isConnect = false ∧
      e.isWrite = false ∧ e.isClose = false) := by
  rw [main_usage L argv (Or.inr hpos)]
  refine ⟨rfl, rfl, ?_⟩
  simp [usageText, Event.isStderr, Event.isSocket, Event.isConnect, Event.isWrite,
    Event.isClose]

/-- A run for claim C2: `cdl-nc 127.0.0.1`, one positional argument. -/
theorem wrong_count_usage_witness :
    positionals (Posix.libc 3 0 5) ["cdl-nc", "127.0.0.1"] = 1 ∧
    (main (Posix.libc 3 0 5) ["cdl-nc", "127.0.0.1"]).status = 1 ∧
    (main (Posix.libc 3 0 5) ["cdl-nc", "127.0.0.1"]).trace = usageText :=
  have h := wrong_count_usage (Posix.libc 3 0 5) ["cdl-nc", "127.0.0.1"] (by decide)
  ⟨by decide, h.1, h.2.1⟩

/-- Claim C3.  In every run with exactly two positional arguments in which
`socket` succeeds and `inet_aton` rejects the host, whatever the port argument,
the exit status is 3, connect and write are never called, and the socket is
closed as the last call of the run. -/
theorem invalid_host_exit (L : Libc) (argv : List String)
    (hret : (parsed L argv).ret = -1) (hpos : positionals L argv = 2)
    (hsock : 0 ≤ sockFd L) (haddr : L.inet_aton (hostArg L argv) = none) :
    (main L argv).status = 3 ∧
    (main L argv).trace =
      [Event.socket AF_INET SOCK_STREAM 0,
       Event.stderr ("Invalid address " ++ hostArg L argv ++ "\n"),
       Event.close (sockFd L)] ∧
    (∀ e ∈ (main L argv).trace, e.isConnect = false ∧ e.isWrite = false) ∧
    (main L argv).trace.getLast? = some (Event.close (sockFd L)) := by
  rw [main_addr_fail L argv hret hpos hsock haddr]
  refine ⟨rfl, rfl, ?_, ?_⟩
  · simp [Event.isConnect, Event.isWrite]
  · simp

/-- A run for claim C3: `cdl-nc 999.999.999.999 80`. -/
theorem invalid_host_exit_witness :
    Posix.inet_aton "999.999.999.999" = none ∧
    (main (Posix.libc 3 0 5) ["cdl-nc", "999.999.999.999", "80"]).status = 3 ∧
    (main (Posix.libc 3 0 5) ["cdl-nc", "999.999.999.999", "80"]).trace =
      [Event.socket AF_INET SOCK_STREAM 0,
       Event.stderr "Invalid address 999.999.999.999\n",
       Event.close 3] :=
  have h := invalid_host_exit (Posix.libc 3 0 5) ["cdl-nc", "999.999.999.999", "80"]
    (by decide) (by decide) (by decide) (by decide)
  ⟨by decide, h.1, h.2.1⟩

/-- Claim C4.  In every run with exactly two positional arguments in which
`socket` and `inet_aton` succeed and `connect` returns a negative result, the
exit status is 2, write is never called, and the socket is closed as the last
call of the run. -/
theorem connect_failure_exit (L : Libc) (argv : List String) (addr : List Nat)
    (hret : (parsed L argv).ret = -1) (hpos : positionals L argv = 2)
    (hsock : 0 ≤ sockFd L) (haddr : L.inet_aton (hostArg L argv) = some addr)
    (hconn : L.connect (sockFd L) (target L argv addr) < 0) :
    (main L argv).status = 2 ∧
    (main L argv).trace =
      [Event.socket AF_INET SOCK_STREAM 0,
       Event.connect (sockFd L) (target L argv addr),
       Event.stderr ("Failed to connect to " ++ hostArg L argv ++ ":" ++
         toString (portOf L argv) ++ "\n"),
       Event.close (sockFd L)] ∧
    (∀ e ∈ (main L argv).trace, e.isWrite = false) ∧
    (main L argv).trace.getLast? = some (Event.close (sockFd L)) := by
  rw [main_connect_fail L argv addr hret hpos hsock haddr hconn]
  refine ⟨rfl, rfl, ?_, ?_⟩
  · simp [Event.isWrite]
  · simp

/-- A run for claim C4: `cdl-nc 127.0.0.1 81` with no listener, `connect`
returns -1. -/
theorem connect_failure_exit_witness :
    (main (Posix.libc 3 (-1) 5) ["cdl-nc", "127.0.0.1", "81"]).status = 2 ∧
    (main (Posix.libc 3 (-1) 5) ["cdl-nc", "127.0.0.1", "81"]).trace =
      [Event.socket AF_INET SOCK_STREAM 0,
       Event.connect 3 { sin_family := 2, sin_port := [0, 81], sin_addr := [127, 0, 0, 1] },
       Event.stderr "Failed to connect to 127.0.0.1:81\n",
       Event.close 3] ∧
    (main (Posix.libc 3 (-1) 5) ["cdl-nc", "127.0.0.1", "81"]).trace.getLast? =
      some (Event.close 3) :=
  have h := connect_failure_exit (Posix.libc 3 (-1) 5) ["cdl-nc", "127.0.0.1", "81"]
    [127, 0, 0, 1] (by decide) (by decide) (by decide) (by decide) (by decide)
  ⟨h.1, h.2.1, h.2.2.2⟩

/-- Claim C5.  In every run that reaches the write step, for every result of
`write` other than 5, the exit status is 3, the socket is closed as the last
call of the run, and write was called exactly once. -/
theorem short_write_exit (L : Libc) (argv : List String) (addr : List Nat)
    (hret : (parsed L argv).ret = -1) (hpos : positionals L argv = 2)
    (hsock : 0 ≤ sockFd L) (haddr : L.inet_aton (hostArg L argv) = some addr)
    (hconn : 0 ≤ L.connect (sockFd L) (target L argv addr))
    (hwrite : L.write (sockFd L) "hello" 5 ≠ 5) :
    (main L argv).status = 3 ∧
    (main L argv).trace.filter Event.isWrite = [Event.write (sockFd L) "hello" 5] ∧
    ((main L argv).trace.filter Event.isWrite).length = 1 ∧
    ((main L argv).trace.filter Event.isClose).length = 1 ∧
    (main L argv).trace.getLast? = some (Event.close (sockFd L)) := by
  rw [main_write_fail L argv addr hret hpos hsock haddr hconn hwrite]
  refine ⟨rfl, ?_, ?_, ?_, ?_⟩ <;> simp [Event.isWrite, Event.isClose]

/-- A run for claim C5: `write` takes only 3 of the 5 bytes. -/
theorem short_write_exit_witness :
    (main (Posix.libc 3 0 3) ["cdl-nc", "127.0.0.1", "80"]).status = 3 ∧
    (main (Posix.libc 3 0 3) ["cdl-nc", "127.0.0.1", "80"]).trace.filter Event.isWrite =
      [Event.write 3 "hello" 5] :=
  have h := short_write_exit (Posix.libc 3 0 3) ["cdl-nc", "127.0.0.1", "80"]
    [127, 0, 0, 1] (by decide) (by decide) (by decide) (by decide) (by decide) (by decide)
  ⟨h.1, h.2.1⟩

/-- Claim C6.  Whenever option parsing comes upon a flag (`getopt` returns
anything but -1: `h` for -h, `?` for an unknown flag), also with two positional
arguments present, the run prints the usage text on the error stream and exits
with status 1, and socket, connect and write are never called. -/
theorem flag_usage (L : Libc) (argv : List String)
    (hflag : (parsed L argv).ret ≠ -1) :
    (main L argv).status = 1 ∧
    (main L argv).trace = usageText ∧
    (∀ e ∈ (main L argv).trace,
      e.isStderr = true ∧ e.isSocket = false ∧ e.isConnect = false ∧
      e.isWrite = false) := by
  rw [main_usage L argv (Or.inl hflag)]
  refine ⟨rfl, rfl, ?_⟩
  simp [usageText, Event.isStderr, Event.isSocket, Event.isConnect, Event.isWrite]

/-- A run for claim C6: `cdl-nc -h 127.0.0.1 80`, the flag with two well-formed
positional arguments. -/
theorem flag_usage_witness :
    (parsed (Posix.libc 3 0 5) ["cdl-nc", "-h", "127.0.0.1", "80"]).ret = 104 ∧
    positionals (Posix.libc 3 0 5) ["cdl-nc", "-h", "127.0.0.1", "80"] = 2 ∧
    (main (Posix.libc 3 0 5) ["cdl-nc", "-h", "127.0.0.1", "80"]).status = 1 ∧
    (main (Posix.libc 3 0 5) ["cdl-nc", "-h", "127.0.0.1", "80"]).trace = usageText :=
  have h := flag_usage (Posix.libc 3 0 5) ["cdl-nc", "-h", "127.0.0.1", "80"] (by decide)
  ⟨by decide, by decide, h.1, h.2.1⟩

/-- The claim C7 as it is worded fails when `socket` itself fails: for
`cdl-nc 127.0.0.1 80` with `socket` returning -1 the run is past argument
parsing, reports the error and returns 1 at once, and close is not called. -/
theorem close_once_counterexample :
    (parsed (Posix.libc (-1) 0 5) ["cdl-nc", "127.0.0.1", "80"]).ret = -1 ∧
    positionals (Posix.libc (-1) 0 5) ["cdl-nc", "127.0.0.1", "80"] = 2 ∧
    main (Posix.libc (-1) 0 5) ["cdl-nc", "127.0.0.1", "80"] =
      { trace := [Event.socket AF_INET SOCK_STREAM 0,
                  Event.stderr "Error creating socket: Too many open files\n"],
        status := 1 } ∧
    ((main (Posix.libc (-1) 0 5) ["cdl-nc", "127.0.0.1", "80"]).trace.filter
      Event.isClose).length ≠ 1 := by
  decide

/-- Claim C7, amended.  In every run that gets past argument parsing and in
which `socket` succeeds, whichever of the later steps fails (address parse,
connect, write) or none, close is called exactly once, on the descriptor of the
socket, as the last call of the run.  When `socket` fails, close is not
called. -/
theorem close_once_after_socket (L : Libc) (argv : List String)
    (hret : (parsed L argv).ret = -1) (hpos : positionals L argv = 2) :
    (0 ≤ sockFd L →
      (main L argv).trace.filter Event.isClose = [Event.close (sockFd L)] ∧
      ((main L argv).trace.filter Event.isClose).length = 1 ∧
      (main L argv).trace.getLast? = some (Event.close (sockFd L))) ∧
    (sockFd L < 0 → (main L argv).trace.filter Event.isClose = []) := by
  constructor
  · intro hsock
    cases haddr : L.inet_aton (hostArg L argv) with
    | none =>
      rw [main_addr_fail L argv hret hpos hsock haddr]
      simp [Event.isClose]
    | some addr =>
      by_cases hconn : L.connect (sockFd L) (target L argv addr) < 0
      · rw [main_connect_fail L argv addr hret hpos hsock haddr hconn]
        simp [Event.isClose]
      · by_cases hwrite : L.write (sockFd L) "hello" 5 = 5
        · rw [main_ok L argv addr hret hpos hsock haddr (not_lt.mp hconn) hwrite]
          simp [Event.isClose]
        · rw [main_write_fail L argv addr hret hpos hsock haddr (not_lt.mp hconn) hwrite]
          simp [Event.isClose]
  · intro hsock
    rw [main_socket_fail L argv hret hpos hsock]
    simp [Event.isClose]

/-- A run for the amended claim C7: `cdl-nc 999.999.999.999 80`, where the
address parse fails after the socket was created. -/
theorem close_once_after_socket_witness :
    (main (Posix.libc 3 0 5) ["cdl-nc", "999.999.999.999", "80"]).trace.filter
        Event.isClose = [Event.close 3] ∧
    (main (Posix.libc 3 0 5) ["cdl-nc", "999.999.999.999", "80"]).trace.getLast? =
      some (Event.close 3) :=
  have h := (close_once_after_socket (Posix.libc 3 0 5)
    ["cdl-nc", "999.999.999.999", "80"] (by decide) (by decide)).1 (by decide)
  ⟨h.1, h.2.2⟩

/-- Claim C8.  The exit status of every run is the value of a function of the
outcomes of its calls: the designated code of the first failing stage in the
order usage (1), socket creation (1), address parse (3), connect (2), write
count not 5 (3), and 0 when no stage fails.  It is one of 0, 1, 2, 3; it is 0
exactly when no stage fails; the error stream carries the report of the first
failing stage and of no other; and a failed socket creation gives status 1
whatever the later stages would do. -/
theorem exit_status_first_failure (L : Libc) (argv : List String) :
    (main L argv).status = specStatus (stageFails L argv) ∧
    ((main L argv).status = 0 ∨ (main L argv).status = 1 ∨
      (main L argv).status = 2 ∨ (main L argv).status = 3) ∧
    ((main L argv).status = 0 ↔ ∀ st, stageFails L argv st = false) ∧
    (main L argv).trace.filter Event.isStderr = specReport L argv ∧
    (stageFails L argv Stage.usage = false → stageFails L argv Stage.socket = true →
      (main L argv).status = 1) := by
  by_cases hu : (parsed L argv).ret ≠ -1 ∨ positionals L argv ≠ 2
  · rw [main_usage L argv hu]
    refine ⟨?_, ?_, ?_, ?_, ?_⟩
    · simp [specStatus, firstFailure, stages, stageFails, hu, Stage.code]
    · simp
    · constructor
      · intro h
        simp at h
      · intro h
        have h1 := h Stage.usage
        simp [stageFails, hu] at h1
    · simp [specReport, firstFailure, stages, stageFails, hu, report, usageText,
        Event.isStderr]
    · intro h1
      simp [stageFails, hu] at h1
  · have hret : (parsed L argv).ret = -1 := by
      by_contra h
      exact hu (Or.inl h)
    have hpos : positionals L argv = 2 := by
      by_contra h
      exact hu (Or.inr h)
    by_cases hsock : sockFd L < 0
    · rw [main_socket_fail L argv hret hpos hsock]
      refine ⟨?_, ?_, ?_, ?_, ?_⟩
      · simp [specStatus, firstFailure, stages, stageFails, hret, hpos, hsock, Stage.code]
      · simp
      · constructor
        · intro h
          simp at h
        · intro h
          have h1 := h Stage.socket
          simp [stageFails, hsock] at h1
      · simp [specReport, firstFailure, stages, stageFails, hret, hpos, hsock, report,
          Event.isStderr]
      · intro _ _
        rfl
    · have hsock0 : 0 ≤ sockFd L := not_lt.mp hsock
      cases haddr : L.inet_aton (hostArg L argv) with
      | none =>
        rw [main_addr_fail L argv hret hpos hsock0 haddr]
        refine ⟨?_, ?_, ?_, ?_, ?_⟩
        · simp [specStatus, firstFailure, stages, stageFails, hret, hpos, hsock, haddr,
            Stage.code]
        · simp
        · constructor
          · intro h
            simp at h
          · intro h
            have h1 := h Stage.address
            simp [stageFails, haddr] at h1
        · simp [specReport, firstFailure, stages, stageFails, hret, hpos, hsock, haddr,
            report, Event.isStderr]
        · intro _ h2
          simp [stageFails, hsock] at h2
      | some addr =>
        by_cases hconn : L.connect (sockFd L) (target L argv addr) < 0
        · rw [main_connect_fail L argv addr hret hpos hsock0 haddr hconn]
          refine ⟨?_, ?_, ?_, ?_, ?_⟩
          · simp [specStatus, firstFailure, stages, stageFails, hret, hpos, hsock, haddr,
              hconn, Stage.code]
          · simp
          · constructor
            · intro h
              simp at h
            · intro h
              have h1 := h Stage.connect
              simp [stageFails, haddr, hconn] at h1
          · simp [specReport, firstFailure, stages, stageFails, hret, hpos, hsock, haddr,
              hconn, report, Event.isStderr]
          · intro _ h2
            simp [stageFails, hsock] at h2
        · by_cases hwrite : L.write (sockFd L) "hello" 5 = 5
          · rw [main_ok L argv addr hret hpos hsock0 haddr (not_lt.mp hconn) hwrite]
            refine ⟨?_, ?_, ?_, ?_, ?_⟩
            · simp [specStatus, firstFailure, stages, stageFails, hret, hpos, hsock, haddr,
                hconn, hwrite, Stage.code]
            · simp
            · constructor
              · intro _ st
                cases st <;>
                  simp [stageFails, hret, hpos, hsock, haddr, hconn, hwrite]
              · intro _
                rfl
            · simp [specReport, firstFailure, stages, stageFails, hret, hpos, hsock, haddr,
                hconn, hwrite, Event.isStderr]
            · intro _ h2
              simp [stageFails, hsock] at h2
          · rw [main_write_fail L argv addr hret hpos hsock0 haddr (not_lt.mp hconn) hwrite]
            refine ⟨?_, ?_, ?_, ?_, ?_⟩
            · simp [specStatus, firstFailure, stages, stageFails, hret, hpos, hsock, haddr,
                hconn, hwrite, Stage.code]
            · simp
            · constructor
              · intro h
                simp at h
              · intro h
                have h1 := h Stage.write
                simp [stageFails, hwrite] at h1
            · simp [specReport, firstFailure, stages, stageFails, hret, hpos, hsock, haddr,
                hconn, hwrite, report, Event.isStderr]
            · intro _ h2
              simp [stageFails, hsock] at h2

/-! ## The library functions: facts used by claims C9 and C10 -/

theorem ntohs_htons (x : Int) : ((ntohs (htons x) : Nat) : Int) = x % 65536 := by
  simp only [ntohs, htons, List.getD_cons_zero, List.getD_cons_succ]
  omega

theorem htons_bytes (x : Int) :
    ∃ hi lo, htons x = [hi, lo] ∧ hi < 256 ∧ lo < 256 ∧
      ((hi * 256 + lo : Nat) : Int) = x % 65536 := by
  refine ⟨(x % 65536).toNat / 256, (x % 65536).toNat % 256, rfl, ?_, ?_, ?_⟩ <;> omega

namespace Posix

theorem toInt_range (v : Int) : -2147483648 ≤ toInt v ∧ toInt v ≤ 2147483647 := by
  unfold toInt
  omega

theorem signedDigits_of_unparseable (nptr : String)
    (h : unparseable nptr = true) :
    signedDigits (nptr.toList.dropWhile isspace) = 0 := by
  unfold unparseable at h
  cases hd : nptr.toList.dropWhile isspace with
  | nil => rfl
  | cons c cs =>
    rw [hd] at h
    simp only at h
    by_cases hsign : c = '-' ∨ c = '+'
    · rw [if_pos hsign] at h
      cases cs with
      | nil => rcases hsign with hc | hc <;> subst hc <;> rfl
      | cons d ds =>
        have hdig : ¬('0' ≤ d ∧ d ≤ '9') := by
          intro hx
          simp [hx] at h
        rcases hsign with hc | hc <;> subst hc <;>
          simp [signedDigits, leadingDigits, hdig]
    · rw [if_neg hsign] at h
      have hdig : ¬('0' ≤ c ∧ c ≤ '9') := by
        intro hx
        simp [hx] at h
      have h1 : c ≠ '-' := fun hc => hsign (Or.inl hc)
      have h2 : c ≠ '+' := fun hc => hsign (Or.inr hc)
      simp [signedDigits, leadingDigits, hdig, h1, h2]

theorem atoi_of_unparseable (nptr : String)
    (h : unparseable nptr = true) : atoi nptr = 0 := by
  unfold atoi strtol
  simp only [signedDigits_of_unparseable nptr h]
  decide

theorem digitValue_of_isSep (c : Char) (h : c = '.' ∨ isspace c = true) :
    digitValue c = none := by
  rcases h with h | h
  · subst h; decide
  · simp only [isspace, Bool.or_eq_true, decide_eq_true_eq] at h
    rcases h with ((((h | h) | h) | h) | h) | h <;> subst h <;> decide

theorem isdigit_of_isSep (c : Char) (h : c = '.' ∨ isspace c = true) :
    isdigit c = false := by
  rcases h with h | h
  · subst h; decide
  · simp only [isspace, Bool.or_eq_true, decide_eq_true_eq] at h
    rcases h with ((((h | h) | h) | h) | h) | h <;> subst h <;> decide

theorem digitsRun_spec (base : Nat) (p r : List Char) (acc : Nat)
    (hp : ∀ c ∈ p, c ≠ '.' ∧ isspace c = false)
    (hr : r = [] ∨ ∃ s t, r = s :: t ∧ (s = '.' ∨ isspace s = true)) :
    (number base p acc = some (digitsRun base (p ++ r) acc).1 ∧
      (digitsRun base (p ++ r) acc).2 = r) ∨
    (number base p acc = none ∧
      ∃ c t, (digitsRun base (p ++ r) acc).2 = c :: t ∧ c ≠ '.' ∧ isspace c = false) := by
  induction p generalizing acc with
  | nil =>
    left
    rcases hr with hr | ⟨s, t, hr, hs⟩
    · subst hr; simp [number, digitsRun]
    · subst hr
      simp [number, digitsRun, digitValue_of_isSep s hs]
  | cons c p ih =>
    have hc := hp c (List.mem_cons_self c p)
    have hp' : ∀ d ∈ p, d ≠ '.' ∧ isspace d = false :=
      fun d hd => hp d (List.mem_cons_of_mem c hd)
    simp only [List.cons_append, number, digitsRun]
    cases hv : digitValue c with
    | none =>
      right
      exact ⟨rfl, c, p ++ r, rfl, hc⟩
    | some d =>
      by_cases hd : d < base
      · simp only [hd, if_true]
        exact ih (acc * base + d) hp'
      · simp only [hd, if_false]
        right
        exact ⟨trivial, c, p ++ r, rfl, hc⟩

theorem hexPrefix_of_sep (r : List Char)
    (hr : r = [] ∨ ∃ s t, r = s :: t ∧ (s = '.' ∨ isspace s = true)) :
    hexPrefix r = false := by
  rcases hr with hr | ⟨s, t, hr, hs⟩
  · subst hr; rfl
  · subst hr
    cases t with
    | nil => rfl
    | cons h t =>
      have hx : s ≠ 'x' := by
        intro e; subst e
        rcases hs with hs | hs
        · exact absurd hs (by decide)
        · exact absurd hs (by decide)
      have hX : s ≠ 'X' := by
        intro e; subst e
        rcases hs with hs | hs
        · exact absurd hs (by decide)
        · exact absurd hs (by decide)
      simp [hexPrefix, hx, hX]

theorem strtoul_spec (c : Char) (p r : List Char)
    (hc : c ≠ '.' ∧ isspace c = false)
    (hp : ∀ d ∈ p, d ≠ '.' ∧ isspace d = false)
    (hr : r = [] ∨ ∃ s t, r = s :: t ∧ (s = '.' ∨ isspace s = true)) :
    (component (c :: p) = some (strtoul (c :: (p ++ r))).1 ∧
      (strtoul (c :: (p ++ r))).2 = r) ∨
    (component (c :: p) = none ∧
      ∃ e t, (strtoul (c :: (p ++ r))).2 = e :: t ∧ e ≠ '.' ∧ isspace e = false) := by
  by_cases h0 : c = '0'
  · subst h0
    cases p with
    | nil =>
      left
      have hd := digitsRun_spec 8 [] r 0 (by simp) hr
      simp only [strtoul, component, List.nil_append, if_true, hexPrefix_of_sep r hr]
      simpa [number] using hd
    | cons x ds =>
      have hx := hp x (List.mem_cons_self x ds)
      have hds : ∀ d ∈ ds, d ≠ '.' ∧ isspace d = false :=
        fun d hd => hp d (List.mem_cons_of_mem x hd)
      by_cases hxx : x = 'x' ∨ x = 'X'
      · cases ds with
        | nil =>
          right
          have hpre : hexPrefix (x :: r) = false := by
            rcases hr with hr | ⟨s, t, hr, hs⟩
            · subst hr; rfl
            · subst hr
              simp [hexPrefix, digitValue_of_isSep s hs]
          have hxv : digitValue x = none := by
            rcases hxx with e | e <;> subst e <;> decide
          simp only [strtoul, component, List.cons_append, List.nil_append, if_true, hxx, hpre]
          simp only [digitsRun, hxv]
          exact ⟨trivial, x, r, rfl, hx⟩
        | cons h more =>
          cases hv : digitValue h with
          | none =>
            right
            have hpre : hexPrefix (x :: h :: (more ++ r)) = false := by
              simp [hexPrefix, hv]
            have hxv : digitValue x = none := by
              rcases hxx with e | e <;> subst e <;> decide
            simp only [strtoul, component, List.cons_append, if_true, hxx, hpre]
            simp only [digitsRun, hxv, number, hv]
            exact ⟨by simp, x, h :: (more ++ r), rfl, hx⟩
          | some d =>
            have hpre : hexPrefix (x :: h :: (more ++ r)) = true := by
              rcases hxx with e | e <;> subst e <;> simp [hexPrefix, hv]
            have hd := digitsRun_spec 16 (h :: more) r 0 hds hr
            simp only [strtoul, component, List.cons_append, if_true, hxx, hpre, List.drop]
            simpa using hd
      · have hpre : hexPrefix (x :: (ds ++ r)) = false := by
          have h1 : x ≠ 'x' := fun e => hxx (Or.inl e)
          have h2 : x ≠ 'X' := fun e => hxx (Or.inr e)
          cases hl : ds ++ r with
          | nil => rfl
          | cons h t => simp [hexPrefix, h1, h2]
        have hd := digitsRun_spec 8 (x :: ds) r 0 hp hr
        simp only [strtoul, component, List.cons_append, if_true, hxx, hpre, if_false]
        simpa using hd
  · have hd := digitsRun_spec 10 (c :: p) r 0 ?_ hr
    · simp only [strtoul, component, h0, if_false]
      simpa using hd
    · intro d hd
      rcases List.mem_cons.mp hd with e | e
      · subst e; exact hc
      · exact hp d e



theorem exists_part (cs : List Char) :
    ∃ p r, cs = p ++ r ∧ (∀ c ∈ p, c ≠ '.' ∧ isspace c = false) ∧
      (r = [] ∨ ∃ s t, r = s :: t ∧ (s = '.' ∨ isspace s = true)) := by
  induction cs with
  | nil => exact ⟨[], [], rfl, by simp, Or.inl rfl⟩
  | cons c cs ih =>
    by_cases hc : c = '.' ∨ isspace c = true
    · exact ⟨[], c :: cs, rfl, by simp, Or.inr ⟨c, cs, rfl, hc⟩⟩
    · obtain ⟨p, r, hcs, hp, hr⟩ := ih
      refine ⟨c :: p, r, by rw [hcs]; rfl, ?_, hr⟩
      intro d hd
      rcases List.mem_cons.mp hd with e | e
      · subst e
        constructor
        · exact fun e => hc (Or.inl e)
        · cases hs : isspace d with
          | false => rfl
          | true => exact absurd (Or.inr hs) hc
      · exact hp d e

theorem splitDots_ne_nil (cs : List Char) : splitDots cs ≠ [] := by
  cases cs with
  | nil => simp [splitDots]
  | cons c cs =>
    unfold splitDots
    by_cases hc : c = '.'
    · simp [hc]
    · rw [if_neg hc]
      cases splitDots cs <;> simp

theorem isspace_dot : isspace '.' = false := by decide

theorem splitDots_part (p r : List Char)
    (hp : ∀ c ∈ p, c ≠ '.' ∧ isspace c = false) :
    (r = [] → splitDots (addressText (p ++ r)) = [p]) ∧
    (∀ s t, r = s :: t → isspace s = true → splitDots (addressText (p ++ r)) = [p]) ∧
    (∀ t, r = '.' :: t →
      splitDots (addressText (p ++ r)) = p :: splitDots (addressText t)) := by
  induction p with
  | nil =>
    refine ⟨?_, ?_, ?_⟩
    · intro hr; subst hr; rfl
    · intro s t hr hs; subst hr
      simp [addressText, List.takeWhile, hs, splitDots]
    · intro t hr; subst hr
      simp [addressText, List.takeWhile, isspace_dot, splitDots]
  | cons c p ih =>
    have hc := hp c (List.mem_cons_self c p)
    have hp' : ∀ d ∈ p, d ≠ '.' ∧ isspace d = false :=
      fun d hd => hp d (List.mem_cons_of_mem c hd)
    obtain ⟨ih1, ih2, ih3⟩ := ih hp'
    have step : ∀ l, splitDots (addressText (p ++ r)) = p :: l →
        splitDots (addressText (c :: p ++ r)) = (c :: p) :: l := by
      intro l hl
      have : addressText (c :: p ++ r) = c :: addressText (p ++ r) := by
        simp [addressText, List.takeWhile, hc.2]
      rw [this, splitDots, if_neg hc.1, hl]
    refine ⟨?_, ?_, ?_⟩
    · intro hr; exact step [] (ih1 hr)
    · intro s t hr hs; exact step [] (ih2 s t hr hs)
    · intro t hr; exact step _ (ih3 t hr)

theorem component_of_not_isdigit (c : Char) (cs : List Char)
    (h : isdigit c = false) : component (c :: cs) = none := by
  have hd : ¬('0' ≤ c ∧ c ≤ '9') := by
    intro hx
    simp [isdigit, hx] at h
  have h0 : c ≠ '0' := by
    intro hc
    subst hc
    exact hd (by decide)
  have hnum : number 10 (c :: cs) 0 = none := by
    unfold number digitValue
    rw [if_neg hd]
    by_cases h1 : 'a' ≤ c ∧ c ≤ 'f'
    · rw [if_pos h1]
      have h97 : 97 ≤ c.toNat := h1.1
      have : ¬(c.toNat - 87 < 10) := by omega
      simp [this]
    · rw [if_neg h1]
      by_cases h2 : 'A' ≤ c ∧ c ≤ 'F'
      · rw [if_pos h2]
        have h65 : 65 ≤ c.toNat := h2.1
        have : ¬(c.toNat - 55 < 10) := by omega
        simp [this]
      · rw [if_neg h2]
  unfold component
  simp only [h0, if_false]
  exact hnum

theorem limit_le (n : Nat) : limit n ≤ 4294967295 := by
  unfold limit
  rcases n with _ | _ | _ | _ | _ | n <;> simp

theorem inetLoop_nil (room : Nat) (pp : List Nat) : inetLoop room [] pp = none := by
  unfold inetLoop
  rfl

theorem inetLoop_cons (room : Nat) (c : Char) (cs : List Char) (pp : List Nat) :
    inetLoop room (c :: cs) pp =
      if !isdigit c then none
      else if (strtoul (c :: cs)).1 > 4294967295 then none
      else
        match (strtoul (c :: cs)).2 with
        | [] => finish (strtoul (c :: cs)).1 pp []
        | d :: next =>
          if d = '.' then
            match room with
            | 0 => none
            | room' + 1 =>
              if (strtoul (c :: cs)).1 > 255 then none
              else inetLoop room' next (pp ++ [(strtoul (c :: cs)).1])
          else finish (strtoul (c :: cs)).1 pp (d :: next) := by
  cases room <;> rw [inetLoop]

theorem assemble_none (room : Nat) (l : List (Option Nat)) (pp : List Nat) :
    assemble room (none :: l) pp = none := by
  unfold assemble
  rfl

theorem assemble_single (room : Nat) (v : Nat) (pp : List Nat) :
    assemble room [some v] pp =
      if v ≤ limit pp.length then some (store pp v) else none := by
  unfold assemble
  rfl

theorem assemble_zero (v : Nat) (w : Option Nat) (ws : List (Option Nat)) (pp : List Nat) :
    assemble 0 (some v :: w :: ws) pp = none := by
  unfold assemble
  rfl

theorem assemble_succ (room v : Nat) (w : Option Nat) (ws : List (Option Nat))
    (pp : List Nat) :
    assemble (room + 1) (some v :: w :: ws) pp =
      if v ≤ 255 then assemble room (w :: ws) (pp ++ [v]) else none := by
  rw [assemble]

theorem finish_end (v : Nat) (pp : List Nat) (rest : List Char)
    (hr : rest = [] ∨ ∃ s t, rest = s :: t ∧ isspace s = true) :
    finish v pp rest = if v ≤ limit pp.length then some (store pp v) else none := by
  have key : (if v > limit pp.length then none else some (store pp v)) =
      (if v ≤ limit pp.length then some (store pp v) else none) := by
    by_cases h : v ≤ limit pp.length
    · rw [if_pos h, if_neg (not_lt.mpr h)]
    · rw [if_neg h, if_pos (not_le.mp h)]
  rcases hr with hr | ⟨s, t, hr, hs⟩
  · subst hr
    simp only [finish]
    exact key
  · subst hr
    simp only [finish, hs, Bool.not_true, Bool.false_eq_true, if_false]
    exact key

theorem finish_junk (v : Nat) (pp : List Nat) (e : Char) (t : List Char)
    (he : isspace e = false) : finish v pp (e :: t) = none := by
  simp [finish, he]

theorem single_big (v : Nat) (pp : List Nat) (hv : v > 4294967295) :
    (if v ≤ limit pp.length then some (store pp v) else none) = none := by
  have := limit_le pp.length
  rw [if_neg (by omega)]

theorem inetLoop_step (room : Nat) (cs : List Char) (pp : List Nat)
    (ih : ∀ n, room = n + 1 → ∀ cs pp,
      inetLoop n cs pp = assemble n ((splitDots (addressText cs)).map component) pp) :
    inetLoop room cs pp =
      assemble room ((splitDots (addressText cs)).map component) pp := by
  obtain ⟨p, r, hcs, hp, hr⟩ := exists_part cs
  subst hcs
  obtain ⟨s1, s2, s3⟩ := splitDots_part p r hp
  have hparts : ∃ l, splitDots (addressText (p ++ r)) = p :: l := by
    rcases hr with hr | ⟨s, t, hr, hs⟩
    · exact ⟨[], s1 hr⟩
    · rcases hs with hs | hs
      · subst hs; exact ⟨_, s3 t hr⟩
      · exact ⟨[], s2 s t hr hs⟩
  cases p with
  | nil =>
    obtain ⟨l, hl⟩ := hparts
    rw [hl, List.map_cons]
    have : component [] = none := rfl
    rw [this, assemble_none]
    rcases hr with hr | ⟨s, t, hr, hs⟩
    · subst hr; exact inetLoop_nil room pp
    · subst hr
      rw [List.nil_append, inetLoop_cons, isdigit_of_isSep s hs]
      rfl
  | cons c p =>
    have hc := hp c (List.mem_cons_self c p)
    have hp' : ∀ d ∈ p, d ≠ '.' ∧ isspace d = false :=
      fun d hd => hp d (List.mem_cons_of_mem c hd)
    rw [List.cons_append, inetLoop_cons]
    cases hdig : isdigit c with
    | false =>
      obtain ⟨l, hl⟩ := hparts
      rw [List.cons_append] at hl
      rw [hl, List.map_cons, component_of_not_isdigit c p hdig, assemble_none]
      rfl
    | true =>
      simp only [Bool.not_true, Bool.false_eq_true, if_false]
      rcases strtoul_spec c p r hc hp' hr with ⟨hcomp, hrest⟩ | ⟨hcomp, e, t, hrest, he⟩
      · by_cases hbig : (strtoul (c :: (p ++ r))).1 > 4294967295
        · rw [if_pos hbig]
          rcases hr with hr | ⟨s, t, hr, hs⟩
          · rw [← List.cons_append, s1 hr, List.map_cons, hcomp, List.map_nil,
              assemble_single, single_big _ _ hbig]
          · rcases hs with hs | hs
            · subst hs
              rw [← List.cons_append, s3 t hr, List.map_cons, hcomp]
              cases hl : List.map component (splitDots (addressText t)) with
              | nil =>
                have := splitDots_ne_nil (addressText t)
                simp at hl
                exact absurd hl this
              | cons w ws =>
                cases room with
                | zero => rw [assemble_zero]
                | succ n =>
                  rw [assemble_succ, if_neg (by omega)]
            · rw [← List.cons_append, s2 s t hr hs, List.map_cons, hcomp, List.map_nil,
                assemble_single, single_big _ _ hbig]
        · rw [if_neg hbig, hrest]
          rcases hr with hr | ⟨s, t, hr, hs⟩
          · rw [← List.cons_append, s1 hr, List.map_cons, hcomp, List.map_nil,
              assemble_single]
            subst hr
            exact finish_end _ pp [] (Or.inl rfl)
          · rcases hs with hs | hs
            · subst hs
              subst hr
              rw [← List.cons_append, s3 t rfl, List.map_cons, hcomp]
              simp only [if_true]
              cases hl : List.map component (splitDots (addressText t)) with
              | nil =>
                have := splitDots_ne_nil (addressText t)
                simp at hl
                exact absurd hl this
              | cons w ws =>
                cases room with
                | zero => rw [assemble_zero]
                | succ n =>
                  rw [assemble_succ]
                  by_cases h255 : (strtoul (c :: (p ++ '.' :: t))).1 > 255
                  · rw [if_neg (by omega)]
                    simp [h255]
                  · rw [if_pos (by omega)]
                    simp only [h255, if_false]
                    rw [ih n rfl, hl]
                    have h255b : ¬(strtoul (c :: p ++ '.' :: t)).1 > 255 := h255
                    rw [if_neg h255b]
                    rfl
            · subst hr
              have hsd : s ≠ '.' := by
                intro e; subst e
                exact absurd hs (by decide)
              rw [← List.cons_append, s2 s t rfl hs, List.map_cons, hcomp, List.map_nil,
                assemble_single]
              simp only [hsd, if_false]
              exact finish_end _ pp (s :: t) (Or.inr ⟨s, t, rfl, hs⟩)
      · obtain ⟨l, hl⟩ := hparts
        rw [List.cons_append] at hl
        rw [hl, List.map_cons, hcomp, assemble_none, hrest]
        simp only [he.1, if_false, finish_junk _ pp e t he.2]
        split <;> rfl

theorem inetLoop_eq_assemble (room : Nat) : ∀ (cs : List Char) (pp : List Nat),
    inetLoop room cs pp =
      assemble room ((splitDots (addressText cs)).map component) pp := by
  induction room with
  | zero =>
    intro cs pp
    exact inetLoop_step 0 cs pp (fun n h => absurd h (by omega))
  | succ n ih =>
    intro cs pp
    refine inetLoop_step (n + 1) cs pp ?_
    intro m hm cs pp
    have : m = n := by omega
    subst this
    exact ih cs pp

theorem store_one (a : Nat) (h : a < 4294967296) :
    store [] a = [a / 16777216, a / 65536 % 256, a / 256 % 256, a % 256] := by
  have h1 : a / 16777216 % 256 = a / 16777216 := by omega
  simp [store, htonl, h1]

theorem store_two (a b : Nat) (hb : b < 16777216) :
    store [a] b = [a, b / 65536, b / 256 % 256, b % 256] := by
  have h1 : b / 16777216 % 256 = 0 := by omega
  have h2 : b / 65536 % 256 = b / 65536 := by omega
  simp [store, htonl, h1, h2]

theorem store_three (a b c : Nat) (hc : c < 65536) :
    store [a, b] c = [a, b, c / 256, c % 256] := by
  have h1 : c / 16777216 % 256 = 0 := by omega
  have h2 : c / 65536 % 256 = 0 := by omega
  have h3 : c / 256 % 256 = c / 256 := by omega
  simp [store, htonl, h1, h2, h3]

theorem store_four (a b c d : Nat) (hd : d < 256) :
    store [a, b, c] d = [a, b, c, d] := by
  have h1 : d / 16777216 % 256 = 0 := by omega
  have h2 : d / 65536 % 256 = 0 := by omega
  have h3 : d / 256 % 256 = 0 := by omega
  have h4 : d % 256 = d := by omega
  simp [store, htonl, h1, h2, h3, h4]

theorem assemble_three (l : List (Option Nat)) : assemble 3 l [] = formBytes l := by
  rcases l with _ | ⟨a, _ | ⟨b, _ | ⟨c, _ | ⟨d, _ | ⟨e, l⟩⟩⟩⟩⟩
  · rfl
  · cases a with
    | none => rfl
    | some a =>
      rw [assemble_single]
      simp only [formBytes, List.length_nil, limit, List.getD_cons_zero]
      by_cases h : a < 4294967296
      · rw [if_pos (by omega), if_pos h, store_one a h]
      · rw [if_neg (by omega), if_neg h]
  · cases a with
    | none => rw [assemble_none]; rfl
    | some a =>
      rw [assemble_succ]
      cases b with
      | none =>
        rw [assemble_none]
        simp [formBytes]
      | some b =>
        rw [assemble_single]
        simp only [formBytes, List.nil_append, List.length_singleton, limit,
          List.getD_cons_succ, List.getD_cons_zero]
        by_cases ha : a < 256
        · by_cases hb : b < 16777216
          · rw [if_pos (by omega), if_pos (by omega), if_pos ⟨ha, hb⟩, store_two a b hb]
          · rw [if_pos (by omega), if_neg (by omega), if_neg (fun h => hb h.2)]
        · rw [if_neg (by omega), if_neg (fun h => ha h.1)]
  · cases a with
    | none => rw [assemble_none]; rfl
    | some a =>
      rw [assemble_succ]
      cases b with
      | none =>
        rw [assemble_none]
        simp [formBytes]
      | some b =>
        rw [assemble_succ]
        cases c with
        | none =>
          rw [assemble_none]
          simp [formBytes]
        | some c =>
          rw [assemble_single]
          simp only [formBytes, List.nil_append, List.singleton_append, List.length_cons,
            List.length_nil, limit, List.getD_cons_succ, List.getD_cons_zero]
          by_cases ha : a < 256
          · by_cases hb : b < 256
            · by_cases hc : c < 65536
              · rw [if_pos (by omega), if_pos (by omega), if_pos (by omega),
                  if_pos ⟨ha, hb, hc⟩, store_three a b c hc]
              · rw [if_pos (by omega), if_pos (by omega), if_neg (by omega),
                  if_neg (fun h => hc h.2.2)]
            · rw [if_pos (by omega), if_neg (by omega), if_neg (fun h => hb h.2.1)]
          · rw [if_neg (by omega), if_neg (fun h => ha h.1)]
  · cases a with
    | none => rw [assemble_none]; rfl
    | some a =>
      rw [assemble_succ]
      cases b with
      | none =>
        rw [assemble_none]
        simp [formBytes]
      | some b =>
        rw [assemble_succ]
        cases c with
        | none =>
          rw [assemble_none]
          simp [formBytes]
        | some c =>
          rw [assemble_succ]
          cases d with
          | none =>
            rw [assemble_none]
            simp [formBytes]
          | some d =>
            rw [assemble_single]
            simp only [formBytes, List.nil_append, List.singleton_append, List.cons_append,
              List.length_cons, List.length_nil, limit, List.getD_cons_succ,
              List.getD_cons_zero]
            by_cases ha : a < 256
            · by_cases hb : b < 256
              · by_cases hc : c < 256
                · by_cases hd : d < 256
                  · rw [if_pos (by omega), if_pos (by omega), if_pos (by omega),
                      if_pos (by omega), if_pos ⟨ha, hb, hc, hd⟩, store_four a b c d hd]
                  · rw [if_pos (by omega), if_pos (by omega), if_pos (by omega),
                      if_neg (by omega), if_neg (fun h => hd h.2.2.2)]
                · rw [if_pos (by omega), if_pos (by omega), if_neg (by omega),
                    if_neg (fun h => hc h.2.2.1)]
              · rw [if_pos (by omega), if_neg (by omega), if_neg (fun h => hb h.2.1)]
            · rw [if_neg (by omega), if_neg (fun h => ha h.1)]
  · cases a with
    | none => rw [assemble_none]; rfl
    | some a =>
      rw [assemble_succ]
      cases b with
      | none =>
        rw [assemble_none]
        simp [formBytes]
      | some b =>
        rw [assemble_succ]
        cases c with
        | none =>
          rw [assemble_none]
          simp [formBytes]
        | some c =>
          rw [assemble_succ]
          cases d with
          | none =>
            rw [assemble_none]
            simp [formBytes]
          | some d =>
            rw [assemble_zero]
            simp [formBytes]

theorem inet_aton_eq_addressForm (host : String) :
    inet_aton host = addressForm host := by
  unfold inet_aton addressForm
  rw [inetLoop_eq_assemble, assemble_three]

theorem addressText_head (cs : List Char) (c : Char)
    (h : (addressText cs).head? = some c) : cs.head? = some c := by
  cases cs with
  | nil => simp [addressText] at h
  | cons d cs =>
    unfold addressText at h
    rw [List.takeWhile_cons] at h
    by_cases hd : (!isspace d) = true
    · rw [if_pos hd] at h
      exact h
    · rw [if_neg hd] at h
      simp at h

theorem splitDots_head (cs : List Char) :
    ∃ p ps, splitDots cs = p :: ps ∧
      (p = [] ∨ ∃ c q, p = c :: q ∧ cs.head? = some c) := by
  cases cs with
  | nil => exact ⟨[], [], rfl, Or.inl rfl⟩
  | cons c cs =>
    unfold splitDots
    by_cases hc : c = '.'
    · rw [if_pos hc]
      exact ⟨[], splitDots cs, rfl, Or.inl rfl⟩
    · rw [if_neg hc]
      cases hs : splitDots cs with
      | nil => exact absurd hs (splitDots_ne_nil cs)
      | cons p ps => exact ⟨c :: p, ps, rfl, Or.inr ⟨c, p, rfl, rfl⟩⟩

theorem inet_aton_of_not_digit (host : String)
    (h : ∀ c, host.toList.head? = some c → ¬('0' ≤ c ∧ c ≤ '9')) :
    inet_aton host = none := by
  rw [inet_aton_eq_addressForm]
  unfold addressForm
  obtain ⟨p, ps, hsplit, hp⟩ := splitDots_head (addressText host.toList)
  have hcomp : component p = none := by
    rcases hp with hnil | ⟨c, q, hq, hhead⟩
    · rw [hnil]; rfl
    · rw [hq]
      apply component_of_not_isdigit
      have := h c (addressText_head _ c hhead)
      simp [isdigit, this]
  rw [hsplit, List.map_cons, hcomp]
  rfl

end Posix

/-! ## Claims C9 and C10 -/

/-- The claim C9 as it is worded fails: "127.1", "127.0.1", "2130706433",
"0x7f.0.0.1" and "127.0.0.1 x" are not of the form a.b.c.d with four decimal
parts in 0..255, yet `inet_aton` accepts each of them as 127.0.0.1; "0300.0.0.1"
is not of that form either (300 is above 255) and is accepted, read in octal, as
192.0.0.1; and `cdl-nc 127.1 80` connects, writes and exits with status 0. -/
theorem host_forms_counterexample :
    isDottedQuad "127.1" = false ∧
    isDottedQuad "127.0.1" = false ∧
    isDottedQuad "2130706433" = false ∧
    isDottedQuad "0x7f.0.0.1" = false ∧
    isDottedQuad "0300.0.0.1" = false ∧
    isDottedQuad "127.0.0.1 x" = false ∧
    Posix.inet_aton "127.1" = some [127, 0, 0, 1] ∧
    Posix.inet_aton "127.0.1" = some [127, 0, 0, 1] ∧
    Posix.inet_aton "2130706433" = some [127, 0, 0, 1] ∧
    Posix.inet_aton "0x7f.0.0.1" = some [127, 0, 0, 1] ∧
    Posix.inet_aton "0300.0.0.1" = some [192, 0, 0, 1] ∧
    Posix.inet_aton "127.0.0.1 x" = some [127, 0, 0, 1] ∧
    main (Posix.libc 3 0 5) ["cdl-nc", "127.1", "80"] =
      { trace := [Event.socket AF_INET SOCK_STREAM 0,
                  Event.connect 3
                    { sin_family := 2, sin_port := [0, 80], sin_addr := [127, 0, 0, 1] },
                  Event.write 3 "hello" 5,
                  Event.close 3],
        status := 0 } := by
  decide

/-- Claim C9, amended.  Only the address forms of `inet_aton` are accepted as
host.  `inet_aton` accepts a host exactly when its text before the first white
space has one of the forms a.b.c.d, a.b.c, a.b, a, each part a C constant
(decimal, octal after a leading 0, hexadecimal after 0x or 0X), every part but
the last at most 255 and the last within 8, 16, 24 or 32 bits, and then stores
the address of that form (`Posix.inet_aton host = Posix.addressForm host` for
every host).  In every run that reaches the address parse (two positional
arguments, socket created) a rejected host gives exit status 3 without any
connect and an accepted host is connected to, at the address of its form.  So
every host that does not begin with a decimal digit is rejected, a DNS name such
as "localhost" among them, and so are "999.999.999.999", "1.2.3.4.5" and
"127.0.0.1x", while "127.1", "2130706433", "0x7f.0.0.1" and "127.0.0.1 x" are
accepted as 127.0.0.1. -/
theorem host_rejected_exit (L : Libc) (argv : List String)
    (hret : (parsed L argv).ret = -1) (hpos : positionals L argv = 2)
    (hsock : 0 ≤ sockFd L) :
    (L.inet_aton (hostArg L argv) = none →
      (main L argv).status = 3 ∧ ∀ e ∈ (main L argv).trace, e.isConnect = false) ∧
    (∀ addr, L.inet_aton (hostArg L argv) = some addr →
      Event.connect (sockFd L) (target L argv addr) ∈ (main L argv).trace) ∧
    (∀ host : String, Posix.inet_aton host = Posix.addressForm host) ∧
    (L.inet_aton (hostArg L argv) = Posix.inet_aton (hostArg L argv) →
      (Posix.addressForm (hostArg L argv) = none →
        (main L argv).status = 3 ∧ ∀ e ∈ (main L argv).trace, e.isConnect = false) ∧
      (∀ addr, Posix.addressForm (hostArg L argv) = some addr →
        Event.connect (sockFd L) (target L argv addr) ∈ (main L argv).trace)) ∧
    (∀ host : String,
      (∀ c, host.toList.head? = some c → ¬('0' ≤ c ∧ c ≤ '9')) →
      Posix.inet_aton host = none) ∧
    (Posix.inet_aton "localhost" = none ∧
      Posix.inet_aton "999.999.999.999" = none ∧
      Posix.inet_aton "999.0.0.1" = none ∧
      Posix.inet_aton "1.2.3.4.5" = none ∧
      Posix.inet_aton "1.2.3." = none ∧
      Posix.inet_aton "1..2" = none ∧
      Posix.inet_aton "127.0.0.1x" = none ∧
      Posix.inet_aton " 127.0.0.1" = none ∧
      Posix.inet_aton "08" = none ∧
      Posix.inet_aton "0x" = none ∧
      Posix.inet_aton "0x1g" = none ∧
      Posix.inet_aton "4294967296" = none ∧
      Posix.inet_aton "1.16777216" = none ∧
      Posix.inet_aton "1.2.65536" = none ∧
      Posix.inet_aton "1.2.3.256" = none) ∧
    (Posix.inet_aton "127.0.0.1" = some [127, 0, 0, 1] ∧
      Posix.inet_aton "127.1" = some [127, 0, 0, 1] ∧
      Posix.inet_aton "127.0.1" = some [127, 0, 0, 1] ∧
      Posix.inet_aton "2130706433" = some [127, 0, 0, 1] ∧
      Posix.inet_aton "0x7f.0.0.1" = some [127, 0, 0, 1] ∧
      Posix.inet_aton "0X7F.1" = some [127, 0, 0, 1] ∧
      Posix.inet_aton "0177.0.0.01" = some [127, 0, 0, 1] ∧
      Posix.inet_aton "1.2.3.4" = some [1, 2, 3, 4] ∧
      Posix.inet_aton "1.2.772" = some [1, 2, 3, 4] ∧
      Posix.inet_aton "1.131844" = some [1, 2, 3, 4] ∧
      Posix.inet_aton "16909060" = some [1, 2, 3, 4] ∧
      Posix.inet_aton "4294967295" = some [255, 255, 255, 255] ∧
      Posix.inet_aton "127.0.0.1 x" = some [127, 0, 0, 1] ∧
      Posix.inet_aton "127.0.0.1\t" = some [127, 0, 0, 1] ∧
      Posix.inet_aton "127.0.0.1\n" = some [127, 0, 0, 1] ∧
      Posix.inet_aton "127.0.0.1\x0b" = some [127, 0, 0, 1] ∧
      Posix.inet_aton "127.0.0.1\x0c" = some [127, 0, 0, 1] ∧
      Posix.inet_aton "127.0.0.1\r" = some [127, 0, 0, 1]) := by
  have hnone : L.inet_aton (hostArg L argv) = none →
      (main L argv).status = 3 ∧ ∀ e ∈ (main L argv).trace, e.isConnect = false := by
    intro haddr
    rw [main_addr_fail L argv hret hpos hsock haddr]
    simp [Event.isConnect]
  have hsome : ∀ addr, L.inet_aton (hostArg L argv) = some addr →
      Event.connect (sockFd L) (target L argv addr) ∈ (main L argv).trace := by
    intro addr haddr
    by_cases hconn : L.connect (sockFd L) (target L argv addr) < 0
    · rw [main_connect_fail L argv addr hret hpos hsock haddr hconn]
      simp
    · by_cases hwrite : L.write (sockFd L) "hello" 5 = 5
      · rw [main_ok L argv addr hret hpos hsock haddr (not_lt.mp hconn) hwrite]
        simp
      · rw [main_write_fail L argv addr hret hpos hsock haddr (not_lt.mp hconn) hwrite]
        simp
  refine ⟨hnone, hsome, Posix.inet_aton_eq_addressForm, ?_, Posix.inet_aton_of_not_digit,
    by decide, by decide⟩
  intro hlib
  rw [Posix.inet_aton_eq_addressForm] at hlib
  constructor
  · intro hform
    exact hnone (hlib.trans hform)
  · intro addr hform
    exact hsome addr (hlib.trans hform)

/-- A run for the amended claim C9: `cdl-nc localhost 80`. -/
theorem host_rejected_exit_witness :
    Posix.addressForm "localhost" = none ∧
    Posix.inet_aton "localhost" = none ∧
    (main (Posix.libc 3 0 5) ["cdl-nc", "localhost", "80"]).status = 3 :=
  ⟨by decide, by decide,
   ((host_rejected_exit (Posix.libc 3 0 5) ["cdl-nc", "localhost", "80"]
      (by decide) (by decide) (by decide)).2.2.2.1 rfl).1 (by decide) |>.1⟩

/-- Claim C10.  The port argument is never validated.  In every run with two
positional arguments, whatever the text of the second, the first call is the
socket creation (no usage, no port error); the port is the `atoi` conversion
of the text; every connect carries in its address that integer through `htons`:
two bytes, the high byte first, that denote the integer reduced modulo 2^16;
the connect is made whenever the socket and the address parse succeed; and for
a text `atoi` finds no number in, the port is 0.  The `atoi` of the library
yields an `int`: 65616 for "65616", 0 for "abc". -/
theorem port_not_validated (L : Libc) (argv : List String)
    (hret : (parsed L argv).ret = -1) (hpos : positionals L argv = 2) :
    (main L argv).trace.head? = some (Event.socket AF_INET SOCK_STREAM 0) ∧
    (∀ fd a, Event.connect fd a ∈ (main L argv).trace →
      a.sin_port = htons (L.atoi (portArg L argv)) ∧
      ((ntohs a.sin_port : Nat) : Int) = L.atoi (portArg L argv) % 65536) ∧
    (0 ≤ sockFd L → ∀ addr, L.inet_aton (hostArg L argv) = some addr →
      Event.connect (sockFd L) (target L argv addr) ∈ (main L argv).trace) ∧
    (L.atoi (portArg L argv) = Posix.atoi (portArg L argv) →
      Posix.unparseable (portArg L argv) = true →
      L.atoi (portArg L argv) = 0 ∧
      ∀ fd a, Event.connect fd a ∈ (main L argv).trace → ntohs a.sin_port = 0) ∧
    (∀ fd a, Event.connect fd a ∈ (main L argv).trace →
      a.sin_port =
        [(L.atoi (portArg L argv) % 65536).toNat / 256,
         (L.atoi (portArg L argv) % 65536).toNat % 256] ∧
      ∃ hi lo, a.sin_port = [hi, lo] ∧ hi < 256 ∧ lo < 256 ∧
        ((hi * 256 + lo : Nat) : Int) = L.atoi (portArg L argv) % 65536) ∧
    (∀ text : String,
      -2147483648 ≤ Posix.atoi text ∧ Posix.atoi text ≤ 2147483647) ∧
    (Posix.atoi "65616" = 65616 ∧ Posix.atoi "80" = 80 ∧ Posix.atoi "abc" = 0 ∧
      Posix.atoi "" = 0 ∧ Posix.atoi "-1" = -1 ∧ Posix.atoi " \t+12x" = 12 ∧
      Posix.atoi "0x10" = 0 ∧ Posix.atoi "2147483647" = 2147483647 ∧
      Posix.atoi "2147483648" = -2147483648 ∧ Posix.atoi "4294967296" = 0 ∧
      Posix.atoi "9223372036854775808" = -1 ∧
      Posix.atoi "-9223372036854775809" = 0) := by
  have hport : ∀ fd a, Event.connect fd a ∈ (main L argv).trace →
      a.sin_port = htons (L.atoi (portArg L argv)) := by
    intro fd a hmem
    by_cases hsock : sockFd L < 0
    · rw [main_socket_fail L argv hret hpos hsock] at hmem
      simp at hmem
    · have hsock0 : 0 ≤ sockFd L := not_lt.mp hsock
      cases haddr : L.inet_aton (hostArg L argv) with
      | none =>
        rw [main_addr_fail L argv hret hpos hsock0 haddr] at hmem
        simp at hmem
      | some addr =>
        by_cases hconn : L.connect (sockFd L) (target L argv addr) < 0
        · rw [main_connect_fail L argv addr hret hpos hsock0 haddr hconn] at hmem
          simp at hmem
          rw [hmem.2]
          rfl
        · by_cases hwrite : L.write (sockFd L) "hello" 5 = 5
          · rw [main_ok L argv addr hret hpos hsock0 haddr (not_lt.mp hconn) hwrite] at hmem
            simp at hmem
            rw [hmem.2]
            rfl
          · rw [main_write_fail L argv addr hret hpos hsock0 haddr (not_lt.mp hconn)
              hwrite] at hmem
            simp at hmem
            rw [hmem.2]
            rfl
  refine ⟨?_, ?_, ?_, ?_, ?_, ?_, by decide⟩
  · by_cases hsock : sockFd L < 0
    · rw [main_socket_fail L argv hret hpos hsock]
      rfl
    · have hsock0 : 0 ≤ sockFd L := not_lt.mp hsock
      cases haddr : L.inet_aton (hostArg L argv) with
      | none =>
        rw [main_addr_fail L argv hret hpos hsock0 haddr]
        rfl
      | some addr =>
        by_cases hconn : L.connect (sockFd L) (target L argv addr) < 0
        · rw [main_connect_fail L argv addr hret hpos hsock0 haddr hconn]
          rfl
        · by_cases hwrite : L.write (sockFd L) "hello" 5 = 5
          · rw [main_ok L argv addr hret hpos hsock0 haddr (not_lt.mp hconn) hwrite]
            rfl
          · rw [main_write_fail L argv addr hret hpos hsock0 haddr (not_lt.mp hconn) hwrite]
            rfl
  · intro fd a hmem
    refine ⟨hport fd a hmem, ?_⟩
    rw [hport fd a hmem]
    exact ntohs_htons _
  · intro hsock addr haddr
    by_cases hconn : L.connect (sockFd L) (target L argv addr) < 0
    · rw [main_connect_fail L argv addr hret hpos hsock haddr hconn]
      simp
    · by_cases hwrite : L.write (sockFd L) "hello" 5 = 5
      · rw [main_ok L argv addr hret hpos hsock haddr (not_lt.mp hconn) hwrite]
        simp
      · rw [main_write_fail L argv addr hret hpos hsock haddr (not_lt.mp hconn) hwrite]
        simp
  · intro hstd hun
    have h0 : L.atoi (portArg L argv) = 0 := by
      rw [hstd]
      exact Posix.atoi_of_unparseable _ hun
    refine ⟨h0, ?_⟩
    intro fd a hmem
    rw [hport fd a hmem, h0]
    rfl
  · intro fd a hmem
    rw [hport fd a hmem]
    exact ⟨rfl, htons_bytes _⟩
  · intro text
    exact Posix.toInt_range _

/-- Two runs for claim C10: `cdl-nc 127.0.0.1 65616` is not rejected and
connects to port 80, and `cdl-nc 127.0.0.1 8080` carries the port as the bytes
31 and 144. -/
theorem port_not_validated_witness :
    Posix.atoi "65616" = 65616 ∧
    Event.connect 3 { sin_family := 2, sin_port := [0, 80], sin_addr := [127, 0, 0, 1] } ∈
      (main (Posix.libc 3 0 5) ["cdl-nc", "127.0.0.1", "65616"]).trace ∧
    ntohs [0, 80] = 80 ∧
    Event.connect 3 { sin_family := 2, sin_port := [31, 144], sin_addr := [127, 0, 0, 1] } ∈
      (main (Posix.libc 3 0 5) ["cdl-nc", "127.0.0.1", "8080"]).trace ∧
    ntohs [31, 144] = 8080 :=
  ⟨by decide,
   (port_not_validated (Posix.libc 3 0 5) ["cdl-nc", "127.0.0.1", "65616"]
      (by decide) (by decide)).2.2.1 (by decide) [127, 0, 0, 1] (by decide),
   by decide,
   (port_not_validated (Posix.libc 3 0 5) ["cdl-nc", "127.0.0.1", "8080"]
      (by decide) (by decide)).2.2.1 (by decide) [127, 0, 0, 1] (by decide),
   by decide⟩

end CdlNc
